import Mathlib

/-!
Verification of `libcloud/utils/misc.py`.

The first part embeds the `retry` decorator (`retry_loop`), which re-invokes a
wrapped operation under a time budget with exponential backoff and a special
branch for rate-limit errors.  Time is modelled as a rational clock that
advances exactly by the durations passed to `time.sleep`; the wrapped
operation itself is instantaneous and is modelled as a function from the
attempt index to an outcome.  The loop is given explicit fuel since the
Python loop need not terminate (sustained rate limiting widens the deadline
forever).

The second part embeds `str2dicts` and `dict2str`, the whitespace/newline
delimited key-value codec, over strings modelled as lists of characters and
Python dicts modelled as insertion-ordered association lists.
-/

namespace LibcloudMisc

/-- An exception value as classified by `retry_loop`:
`retryable` says whether it matches the `retry_exceptions` tuple (the
`except retry_exceptions` clause), `rateLimit` whether it is an instance of
`RateLimitReachedError` (checked only inside that clause), `retryAfter` is the
`retry_after` attribute (meaningful for rate-limit errors), and `id` is an
identity payload so that distinct error objects can be told apart. -/
structure Err where
  retryable : Bool
  rateLimit : Bool
  retryAfter : ℚ
  id : ℕ
deriving DecidableEq, Repr

/-- One invocation of the wrapped callable either returns a value or raises
an error. -/
inductive Outcome (α : Type) where
  | ok : α → Outcome α
  | err : Err → Outcome α
deriving DecidableEq, Repr

/-- The mutable state of one invocation of `retry_loop`:
the current clock (`now`), the local variable `delay` (`None` models Python
`None`), the local variable `end` (the deadline), the local variable
`exc_info` (last recorded retryable non-rate-limit error), plus two traces:
the number of invocations of `func` so far and the list of durations passed
to `time.sleep`, in order. -/
structure St where
  now : ℚ
  delay : Option ℚ
  deadline : ℚ
  excInfo : Option Err
  calls : ℕ
  sleeps : List ℚ
deriving DecidableEq, Repr

/-- The result of running the wrapper: a returned value, a raised error,
a `TypeError` (arithmetic or `sleep` on `None`), or fuel exhaustion (the
Python loop did not terminate within the given number of iterations). -/
inductive RunResult (α : Type) where
  | ok : α → RunResult α
  | raised : Err → RunResult α
  | typeError : RunResult α
  | fuelOut : RunResult α
deriving DecidableEq, Repr

/-- Module constant `DEFAULT_TIMEOUT = 30` (defined in the source but never
read by `retry`). -/
def DEFAULT_TIMEOUT : ℚ := 30

/-- Module constant `DEFAULT_SLEEP = 1` (defined in the source but never
read by `retry`). -/
def DEFAULT_SLEEP : ℚ := 1

/-- Module constant `DEFAULT_BACKCOFF = 1` (defined in the source but never
read by `retry`). -/
def DEFAULT_BACKCOFF : ℚ := 1

/-- The `while datetime.now() < end:` loop of `retry_loop`, plus the epilogue
after the loop (`if exc_info: raise exc_info` / `return func(...)`).

Each iteration: if `now < end`, call `func`; on success return; on an error
matching `retry_exceptions`, either (rate limit) sleep `retry_after` and set
`end = now() + retry_after + timeout` with `now()` read after the sleep, or
(other retryable) record `exc_info`, sleep `delay` and multiply `delay` by
`backoff`; an error not matching `retry_exceptions` propagates.  Sleeping or
multiplying with a `None` delay/backoff raises `TypeError`.  When `now ≥ end`
the loop exits: the recorded `exc_info` is re-raised if present, otherwise
`func` is called once more unconditionally and its outcome propagated. -/
def retryLoopGo {α : Type} (timeout : ℚ) (backoff : Option ℚ) (op : ℕ → Outcome α) :
    ℕ → St → RunResult α × St
  | 0, s => (RunResult.fuelOut, s)
  | fuel + 1, s =>
    if s.now < s.deadline then
      match op s.calls with
      | Outcome.ok v => (RunResult.ok v, { s with calls := s.calls + 1 })
      | Outcome.err e =>
        if e.retryable then
          if e.rateLimit then
            retryLoopGo timeout backoff op fuel
              { s with
                now := s.now + e.retryAfter,
                deadline := s.now + e.retryAfter + (e.retryAfter + timeout),
                calls := s.calls + 1,
                sleeps := s.sleeps ++ [e.retryAfter] }
          else
            match s.delay with
            | none =>
              (RunResult.typeError, { s with excInfo := some e, calls := s.calls + 1 })
            | some d =>
              match backoff with
              | none =>
                (RunResult.typeError,
                 { s with excInfo := some e, now := s.now + d, calls := s.calls + 1,
                          sleeps := s.sleeps ++ [d] })
              | some b =>
                retryLoopGo timeout backoff op fuel
                  { s with excInfo := some e, now := s.now + d,
                           delay := some (d * b), calls := s.calls + 1,
                           sleeps := s.sleeps ++ [d] }
        else
          (RunResult.raised e, { s with calls := s.calls + 1 })
    else
      match s.excInfo with
      | some e => (RunResult.raised e, s)
      | none =>
        match op s.calls with
        | Outcome.ok v => (RunResult.ok v, { s with calls := s.calls + 1 })
        | Outcome.err e => (RunResult.raised e, { s with calls := s.calls + 1 })

/-- One invocation of the wrapper produced by
`retry(retry_exceptions, retry_delay, timeout, backoff)` applied to `func`,
started at clock value `start`.  It first runs `delay = retry_delay` and
`end = datetime.now() + timedelta(seconds=timeout)`; `timedelta` with a
`None` seconds argument raises `TypeError` before `func` is ever called.
Otherwise the loop `retryLoopGo` runs from the initial state. -/
def retry_loop {α : Type} (retry_delay timeout backoff : Option ℚ)
    (op : ℕ → Outcome α) (fuel : ℕ) (start : ℚ) : RunResult α × St :=
  match timeout with
  | none =>
    (RunResult.typeError,
     { now := start, delay := retry_delay, deadline := start, excInfo := none,
       calls := 0, sleeps := [] })
  | some t =>
    retryLoopGo t backoff op fuel
      { now := start, delay := retry_delay, deadline := start + t, excInfo := none,
        calls := 0, sleeps := [] }

/-- `retry` with its default arguments `retry_delay=None, timeout=None,
backoff=None`. -/
def retryDefaults {α : Type} (op : ℕ → Outcome α) (fuel : ℕ) (start : ℚ) :
    RunResult α × St :=
  retry_loop none none none op fuel start

/-- Cumulative backoff delay before the `j`-th retry:
`d + d*b + ... + d*b^(j-1)`. -/
def backoffSum (d b : ℚ) (j : ℕ) : ℚ :=
  (Finset.range j).sum (fun i => d * b ^ i)

/-! ### `str2dicts` / `dict2str`

Strings are modelled as `List Char`; Python dicts as insertion-ordered
association lists (`PyDict`), with values either a string or Python `None`. -/

/-- The characters stripped by Python `str.strip()` with no argument, i.e.
the characters `c` with `c.isspace()` true: ASCII whitespace (tab, LF, VT,
FF, CR, space), the separators `\x1c`–`\x1f`, `\x85`, and the Unicode space
characters. -/
def isPySpace (c : Char) : Bool :=
  decide ((9 ≤ c.toNat ∧ c.toNat ≤ 13) ∨ (28 ≤ c.toNat ∧ c.toNat ≤ 31) ∨
    c.toNat = 32 ∨ c.toNat = 133 ∨ c.toNat = 160 ∨ c.toNat = 5760 ∨
    (8192 ≤ c.toNat ∧ c.toNat ≤ 8202) ∨ c.toNat = 8232 ∨ c.toNat = 8233 ∨
    c.toNat = 8239 ∨ c.toNat = 8287 ∨ c.toNat = 12288)

/-- Python `line.strip()`: drop leading and trailing whitespace. -/
def pyStrip (l : List Char) : List Char :=
  ((l.dropWhile isPySpace).reverse.dropWhile isPySpace).reverse

/-- Python `data.split(sep)` for a one-character separator: split at every
occurrence of `sep`, keeping empty pieces (`"".split` gives `[""]`). -/
def splitOnChar (sep : Char) : List Char → List (List Char)
  | [] => [[]]
  | c :: cs =>
    match splitOnChar sep cs with
    | [] => [[c]]
    | g :: gs => if c = sep then [] :: g :: gs else (c :: g) :: gs

/-- Python `line.find(c)`: index of the first occurrence of `c`, or `-1`. -/
def pyFind (c : Char) (l : List Char) : Int :=
  match l.findIdx? (fun x => decide (x = c)) with
  | some i => (i : Int)
  | none => -1

/-- Python slice `l[0:w]` for an `Int` bound `w` (negative bounds count from
the end, clamped at zero). -/
def sliceTo (l : List Char) (w : Int) : List Char :=
  if 0 ≤ w then l.take w.toNat else l.take (l.length - (-w).toNat)

/-- Python slice `l[i:]` for an `Int` start `i` (negative starts count from
the end, clamped at zero). -/
def sliceFrom (l : List Char) (i : Int) : List Char :=
  if 0 ≤ i then l.drop i.toNat else l.drop (l.length - (-i).toNat)

/-- A Python dict with string keys and string-or-`None` values, as an
insertion-ordered association list with pairwise distinct keys. -/
abbrev PyDict := List (List Char × Option (List Char))

/-- Python `d.update({key: value})` for a single key: overwrite in place if
the key is present (keeping its position), otherwise append. -/
def dictUpdate (d : PyDict) (k : List Char) (v : Option (List Char)) : PyDict :=
  if d.any (fun p => decide (p.1 = k)) then
    d.map (fun p => if p.1 = k then (k, v) else p)
  else d ++ [(k, v)]

/-- The `for line in lines:` loop of `str2dicts`.  `acc` holds the dicts
already appended to `list_data` (with their final contents) and `cur` the
dict currently pointed to by `d`; at the end of the input `cur` is the last
element of `list_data`.  A blank (stripped-empty) line finishes `cur` and
starts a fresh dict; a line whose first space is at index 0 is skipped
(`if not whitespace: continue`); otherwise the line is split at the first
space (Python slice semantics, with `find` returning `-1` when there is no
space) and the pair stored in `cur`. -/
def processLines : List (List Char) → List PyDict → PyDict → List PyDict
  | [], acc, cur => acc ++ [cur]
  | line :: rest, acc, cur =>
    let l := pyStrip line
    if l = [] then processLines rest (acc ++ [cur]) []
    else
      let w := pyFind ' ' l
      if w = 0 then processLines rest acc cur
      else processLines rest acc (dictUpdate cur (sliceTo l w) (some (sliceFrom l (w + 1))))

/-- `str2dicts(data)`: split on newlines, run the line loop starting from
`list_data = [{}]`, and drop the empty dicts at the end
(`[val for val in list_data if val != {}]`). -/
def str2dicts (data : List Char) : List PyDict :=
  (processLines (splitOnChar '\n' data) [] []).filter (fun d => !d.isEmpty)

/-- `dict2str(data)`: one line per key in iteration order, `"key value\n"`
for a string value and `"key\n"` for a `None` value. -/
def dict2str (data : PyDict) : List Char :=
  (data.map (fun p =>
    match p.2 with
    | some v => p.1 ++ ' ' :: (v ++ ['\n'])
    | none => p.1 ++ ['\n'])).flatten

/-- View a dict with string keys and string values as a `PyDict`. -/
def strEntries (d : List (List Char × List Char)) : PyDict :=
  d.map (fun p => (p.1, some p.2))

/-- The text line produced by `dict2str` for one string-valued entry,
without the trailing newline. -/
def lineOf (p : List Char × List Char) : List Char :=
  p.1 ++ ' ' :: p.2

/-- The outcome of a single call, as propagated by the epilogue of
`retry_loop` (`return func(...)` outside any `try`). -/
def runOutcome {α : Type} : Outcome α → RunResult α
  | Outcome.ok v => RunResult.ok v
  | Outcome.err e => RunResult.raised e

/-! ### Claims about the retry executor -/

/-- C2: with `timeoutSeconds ≤ 0`, the wrapper never enters the retry loop
body: it invokes `op` exactly once (the unconditional fallback call after the
loop), returns its result or propagates its error directly — regardless of
whether that error is classified as retryable — and performs no suspension. -/
theorem retry_nonpos_timeout_single_call {α : Type} (rd bo : Option ℚ) (T : ℚ)
    (op : ℕ → Outcome α) (fuel : ℕ) (t0 : ℚ)
    (hT : T ≤ 0) (hfuel : 1 ≤ fuel) :
    (retry_loop rd (some T) bo op fuel t0).1 = runOutcome (op 0) ∧
    (retry_loop rd (some T) bo op fuel t0).2.calls = 1 ∧
    (retry_loop rd (some T) bo op fuel t0).2.sleeps = [] := by
  obtain ⟨f, rfl⟩ : ∃ f, fuel = f + 1 := ⟨fuel - 1, by omega⟩
  have hlt : ¬ t0 < t0 + T := by linarith
  cases hop : op 0 with
  | ok v => simp [retry_loop, retryLoopGo, hlt, hop, runOutcome]
  | err e => simp [retry_loop, retryLoopGo, hlt, hop, runOutcome]

theorem retry_nonpos_timeout_single_call_witness :
    (0 : ℚ) ≤ 0 ∧
    ((retry_loop (some 1) (some 0) (some 1) (fun _ => Outcome.ok (7 : ℕ)) 1 0).1 =
        runOutcome ((fun _ => Outcome.ok (7 : ℕ)) 0) ∧
     (retry_loop (some 1) (some 0) (some 1) (fun _ => Outcome.ok (7 : ℕ)) 1 0).2.calls = 1 ∧
     (retry_loop (some 1) (some 0) (some 1) (fun _ => Outcome.ok (7 : ℕ)) 1 0).2.sleeps = []) :=
  ⟨le_refl 0,
   retry_nonpos_timeout_single_call (some 1) (some 1) 0 (fun _ => Outcome.ok 7) 1 0
     (le_refl 0) (le_refl 1)⟩

/-- C6: an error not in the configured retryable categories is propagated as
exactly the same error value on the first attempt, with zero suspensions —
for every policy (any delay, timeout and backoff). -/
theorem retry_nonretryable_first_attempt {α : Type} (rd bo : Option ℚ) (T t0 : ℚ)
    (op : ℕ → Outcome α) (e : Err) (fuel : ℕ)
    (hfuel : 1 ≤ fuel) (hop : op 0 = Outcome.err e) (he : e.retryable = false) :
    (retry_loop rd (some T) bo op fuel t0).1 = RunResult.raised e ∧
    (retry_loop rd (some T) bo op fuel t0).2.calls = 1 ∧
    (retry_loop rd (some T) bo op fuel t0).2.sleeps = [] := by
  obtain ⟨f, rfl⟩ : ∃ f, fuel = f + 1 := ⟨fuel - 1, by omega⟩
  by_cases hlt : t0 < t0 + T
  · simp [retry_loop, retryLoopGo, hlt, hop, he]
  · simp [retry_loop, retryLoopGo, hlt, hop]

theorem retry_nonretryable_first_attempt_witness :
    ((fun _ => Outcome.err (α := ℕ) ⟨false, false, 0, 7⟩) 0 =
        Outcome.err ⟨false, false, 0, 7⟩) ∧
    ((retry_loop (some 1) (some 5) (some 2)
        (fun _ => Outcome.err (α := ℕ) ⟨false, false, 0, 7⟩) 1 0).1 =
          RunResult.raised ⟨false, false, 0, 7⟩ ∧
     (retry_loop (some 1) (some 5) (some 2)
        (fun _ => Outcome.err (α := ℕ) ⟨false, false, 0, 7⟩) 1 0).2.calls = 1 ∧
     (retry_loop (some 1) (some 5) (some 2)
        (fun _ => Outcome.err (α := ℕ) ⟨false, false, 0, 7⟩) 1 0).2.sleeps = []) :=
  ⟨rfl,
   retry_nonretryable_first_attempt (some 1) (some 2) 5 0
     (fun _ => Outcome.err ⟨false, false, 0, 7⟩) ⟨false, false, 0, 7⟩ 1
     (le_refl 1) rfl rfl⟩

/-- C9: calling `retry` with its default arguments
(`retry_delay=None, timeout=None, backoff=None`) produces a wrapper whose
every invocation raises `TypeError` before `op` is ever invoked: the `None`
defaults are never replaced by the module constants — substituting
`DEFAULT_SLEEP`, `DEFAULT_TIMEOUT`, `DEFAULT_BACKCOFF` for them gives a
visibly different wrapper. -/
theorem retry_defaults_type_error {α : Type} (op : ℕ → Outcome α) (fuel : ℕ) (t0 : ℚ) :
    (retryDefaults op fuel t0).1 = RunResult.typeError ∧
    (retryDefaults op fuel t0).2.calls = 0 ∧
    retryDefaults (fun _ => Outcome.ok ()) 1 0 ≠
      retry_loop (some DEFAULT_SLEEP) (some DEFAULT_TIMEOUT) (some DEFAULT_BACKCOFF)
        (fun _ => Outcome.ok ()) 1 0 := by
  refine ⟨rfl, rfl, ?_⟩
  have h30 : (0 : ℚ) < 0 + 30 := by norm_num
  simp [retryDefaults, retry_loop, retryLoopGo, DEFAULT_SLEEP, DEFAULT_TIMEOUT,
    DEFAULT_BACKCOFF, h30]

/-- C7: on a failure classified as `RateLimitReached`, one loop iteration
suspends for `retryAfterSeconds` (it is appended to the sleep trace and the
clock advances by it), then sets the deadline to the post-suspend `now()`
plus `retryAfterSeconds` plus `timeoutSeconds`, and leaves
`currentDelaySeconds` (`delay`) and `lastRetryableError` (`exc_info`)
unchanged. -/
theorem retry_rate_limit_step {α : Type} (T : ℚ) (bo : Option ℚ) (op : ℕ → Outcome α)
    (fuel : ℕ) (s : St) (e : Err)
    (hin : s.now < s.deadline) (hop : op s.calls = Outcome.err e)
    (hre : e.retryable = true) (hrl : e.rateLimit = true) :
    ∃ s2 : St,
      retryLoopGo T bo op (fuel + 1) s = retryLoopGo T bo op fuel s2 ∧
      s2.now = s.now + e.retryAfter ∧
      s2.deadline = s2.now + e.retryAfter + T ∧
      s2.delay = s.delay ∧
      s2.excInfo = s.excInfo ∧
      s2.calls = s.calls + 1 ∧
      s2.sleeps = s.sleeps ++ [e.retryAfter] := by
  refine ⟨{ s with
      now := s.now + e.retryAfter,
      deadline := s.now + e.retryAfter + (e.retryAfter + T),
      calls := s.calls + 1,
      sleeps := s.sleeps ++ [e.retryAfter] }, ?_, rfl, by ring, rfl, rfl, rfl, rfl⟩
  simp [retryLoopGo, hin, hop, hre, hrl]

theorem retry_rate_limit_step_witness :
    ((0 : ℚ) < 5) ∧
    (∃ s2 : St,
      retryLoopGo 5 (some 2) (fun _ => Outcome.err (α := ℕ) ⟨true, true, 10, 3⟩) (0 + 1)
          { now := 0, delay := some 1, deadline := 5, excInfo := none, calls := 0,
            sleeps := [] } =
        retryLoopGo 5 (some 2) (fun _ => Outcome.err (α := ℕ) ⟨true, true, 10, 3⟩) 0 s2 ∧
      s2.now = (0 : ℚ) + (10 : ℚ) ∧
      s2.deadline = s2.now + 10 + 5 ∧
      s2.delay = some 1 ∧
      s2.excInfo = none ∧
      s2.calls = 0 + 1 ∧
      s2.sleeps = [] ++ [(10 : ℚ)]) :=
  ⟨by norm_num,
   retry_rate_limit_step 5 (some 2) (fun _ => Outcome.err ⟨true, true, 10, 3⟩) 0
     { now := 0, delay := some 1, deadline := 5, excInfo := none, calls := 0, sleeps := [] }
     ⟨true, true, 10, 3⟩ (by norm_num) rfl rfl rfl⟩

/-- C1 counterexample: with `timeoutSeconds = 5`, a `RateLimitReached`
failure with `retryAfterSeconds = 10` observed at time `t0 = 0` (the first
attempt is made at the start of the call), the loop suspends `10` — but the
effective deadline after handling is `25 = t0 + 2*10 + 5`, not
`t0 + 10 + 5 = 15` as the claim states: the code computes
`end = now() + (retry_after + timeout)` only after sleeping `retry_after`. -/
theorem rate_limit_deadline_cex :
    (retry_loop (some 1) (some 5) (some 2)
        (fun n => if n = 0 then Outcome.err ⟨true, true, 10, 0⟩ else Outcome.ok ())
        2 0).2.deadline = 25 ∧
    (retry_loop (some 1) (some 5) (some 2)
        (fun n => if n = 0 then Outcome.err ⟨true, true, 10, 0⟩ else Outcome.ok ())
        2 0).2.sleeps = [10] ∧
    (25 : ℚ) ≠ 0 + 10 + 5 := by
  refine ⟨?_, ?_, by norm_num⟩
  · norm_num [retry_loop, retryLoopGo]
  · norm_num [retry_loop, retryLoopGo]

/-- C1 amended: with `timeoutSeconds = T` and a `RateLimitReached` failure
carrying `retryAfterSeconds = r` observed at time `t0` (as the first
attempt), the wrapper suspends for exactly `r` before the next attempt, and
the effective deadline after handling equals `t0 + 2*r + T` — the
post-suspend clock plus `r` plus `T` — rather than `t0 + r + T`. -/
theorem rate_limit_widening_amended {α : Type} (d b T r t0 : ℚ) (v : α)
    (op : ℕ → Outcome α) (e : Err) (fuel : ℕ)
    (hT : 0 < T) (hr : 0 ≤ r)
    (hop0 : op 0 = Outcome.err e) (hre : e.retryable = true)
    (hrl : e.rateLimit = true) (hra : e.retryAfter = r)
    (hop1 : op 1 = Outcome.ok v) :
    (retry_loop (some d) (some T) (some b) op (fuel + 1 + 1) t0).1 = RunResult.ok v ∧
    (retry_loop (some d) (some T) (some b) op (fuel + 1 + 1) t0).2.sleeps = [r] ∧
    (retry_loop (some d) (some T) (some b) op (fuel + 1 + 1) t0).2.deadline =
      t0 + 2 * r + T := by
  have h1 : t0 < t0 + T := by linarith
  have h2 : t0 + r < t0 + r + (r + T) := by linarith
  refine ⟨?_, ?_, ?_⟩
  · simp [retry_loop, retryLoopGo, h1, h2, hop0, hre, hrl, hra, hop1]
  · simp [retry_loop, retryLoopGo, h1, h2, hop0, hre, hrl, hra, hop1]
  · simp [retry_loop, retryLoopGo, h1, h2, hop0, hre, hrl, hra, hop1]
    ring

/-- Helper for the amended form of C8: along any run, with `backoff ≥ 1` and
a non-negative current delay, the `delay` variable never decreases. -/
theorem retryLoopGo_delay_mono {α : Type} (T b : ℚ) (op : ℕ → Outcome α) (hb : 1 ≤ b) :
    ∀ (fuel : ℕ) (s : St) (d0 : ℚ), s.delay = some d0 → 0 ≤ d0 →
      ∃ d1, (retryLoopGo T (some b) op fuel s).2.delay = some d1 ∧ d0 ≤ d1 := by
  intro fuel
  induction fuel with
  | zero =>
    intro s d0 hd hd0
    exact ⟨d0, by simpa [retryLoopGo] using hd, le_refl d0⟩
  | succ f ih =>
    intro s d0 hd hd0
    by_cases hin : s.now < s.deadline
    · cases hop : op s.calls with
      | ok v => exact ⟨d0, by simp [retryLoopGo, hin, hop, hd], le_refl d0⟩
      | err e =>
        by_cases hre : e.retryable = true
        · by_cases hrl : e.rateLimit = true
          · obtain ⟨d1, h1, h2⟩ := ih
              { s with now := s.now + e.retryAfter,
                       deadline := s.now + e.retryAfter + (e.retryAfter + T),
                       calls := s.calls + 1,
                       sleeps := s.sleeps ++ [e.retryAfter] } d0 (by simpa using hd) hd0
            exact ⟨d1, by simpa [retryLoopGo, hin, hop, hre, hrl] using h1, h2⟩
          · have hrl' : e.rateLimit = false := by simpa using hrl
            have hb0 : (0 : ℚ) ≤ b := le_trans zero_le_one hb
            obtain ⟨d1, h1, h2⟩ := ih
              { s with excInfo := some e, now := s.now + d0, delay := some (d0 * b),
                       calls := s.calls + 1, sleeps := s.sleeps ++ [d0] }
              (d0 * b) rfl (mul_nonneg hd0 hb0)
            refine ⟨d1, ?_, le_trans (le_mul_of_one_le_right hd0 hb) h2⟩
            simpa [retryLoopGo, hin, hop, hre, hrl', hd] using h1
        · have hre' : e.retryable = false := by simpa using hre
          exact ⟨d0, by simp [retryLoopGo, hin, hop, hre', hd], le_refl d0⟩
    · cases hexc : s.excInfo with
      | some e => exact ⟨d0, by simp [retryLoopGo, hin, hexc, hd], le_refl d0⟩
      | none =>
        cases hop : op s.calls with
        | ok v => exact ⟨d0, by simp [retryLoopGo, hin, hexc, hop, hd], le_refl d0⟩
        | err e => exact ⟨d0, by simp [retryLoopGo, hin, hexc, hop, hd], le_refl d0⟩

/-- C8 counterexample: policy `timeoutSeconds = 5`, `backoffMultiplier = 2`
(≥ 1), started at `t0 = 0`.  The first attempt fails rate-limited with
`retryAfterSeconds = 10`, giving deadline `25`; the second attempt fails
rate-limited with `retryAfterSeconds = 1`, and the deadline is recomputed to
`11 + 1 + 5 = 17 < 25`: the deadline of one invocation moved backward in
time, refuting the claim's deadline invariant. -/
theorem deadline_backward_cex :
    retry_loop (some 1) (some 5) (some 2)
        (fun n => if n = 0 then Outcome.err ⟨true, true, 10, 0⟩
                  else if n = 1 then Outcome.err ⟨true, true, 1, 1⟩ else Outcome.ok ())
        (2 + 1) 0 =
      retryLoopGo 5 (some 2)
        (fun n => if n = 0 then Outcome.err ⟨true, true, 10, 0⟩
                  else if n = 1 then Outcome.err ⟨true, true, 1, 1⟩ else Outcome.ok ())
        2
        { now := 10, delay := some 1, deadline := 25, excInfo := none, calls := 1,
          sleeps := [10] } ∧
    retryLoopGo 5 (some 2)
        (fun n => if n = 0 then Outcome.err ⟨true, true, 10, 0⟩
                  else if n = 1 then Outcome.err ⟨true, true, 1, 1⟩ else Outcome.ok ())
        (1 + 1)
        { now := 10, delay := some 1, deadline := 25, excInfo := none, calls := 1,
          sleeps := [10] } =
      retryLoopGo 5 (some 2)
        (fun n => if n = 0 then Outcome.err ⟨true, true, 10, 0⟩
                  else if n = 1 then Outcome.err ⟨true, true, 1, 1⟩ else Outcome.ok ())
        1
        { now := 11, delay := some 1, deadline := 17, excInfo := none, calls := 2,
          sleeps := [10, 1] } ∧
    ¬ ((25 : ℚ) ≤ 17) := by
  refine ⟨by norm_num [retry_loop, retryLoopGo], by norm_num [retryLoopGo], by norm_num⟩

/-- C8 amended: within one invocation, with `backoffMultiplier ≥ 1` and a
non-negative current delay, `currentDelaySeconds` is monotonically
non-decreasing across the loop's iterations; the deadline is left unchanged
by every non-rate-limit iteration, and a rate-limit iteration resets it to
the post-suspend `now()` plus `retryAfter` plus `timeout` — a value that can
lie before the previous deadline (see the counterexample), so the deadline
does not only move forward. -/
theorem delay_monotone_deadline_amended {α : Type} (T b : ℚ) (op : ℕ → Outcome α)
    (hb : 1 ≤ b) :
    (∀ (fuel : ℕ) (s : St) (d0 : ℚ), s.delay = some d0 → 0 ≤ d0 →
      ∃ d1, (retryLoopGo T (some b) op fuel s).2.delay = some d1 ∧ d0 ≤ d1) ∧
    (∀ (fuel : ℕ) (s : St) (e : Err) (d0 : ℚ),
      s.now < s.deadline → op s.calls = Outcome.err e → e.retryable = true →
      e.rateLimit = false → s.delay = some d0 →
      ∃ s2 : St,
        retryLoopGo T (some b) op (fuel + 1) s = retryLoopGo T (some b) op fuel s2 ∧
        s2.deadline = s.deadline ∧ s2.delay = some (d0 * b)) ∧
    (∀ (fuel : ℕ) (s : St) (e : Err),
      s.now < s.deadline → op s.calls = Outcome.err e → e.retryable = true →
      e.rateLimit = true →
      ∃ s2 : St,
        retryLoopGo T (some b) op (fuel + 1) s = retryLoopGo T (some b) op fuel s2 ∧
        s2.deadline = s.now + e.retryAfter + (e.retryAfter + T) ∧
        s2.delay = s.delay) := by
  refine ⟨retryLoopGo_delay_mono T b op hb, ?_, ?_⟩
  · intro fuel s e d0 hin hop hre hrl hd
    refine ⟨{ s with
              excInfo := some e, now := s.now + d0, delay := some (d0 * b),
              calls := s.calls + 1, sleeps := s.sleeps ++ [d0] }, ?_, rfl, rfl⟩
    simp [retryLoopGo, hin, hop, hre, hrl, hd]
  · intro fuel s e hin hop hre hrl
    refine ⟨{ s with
              now := s.now + e.retryAfter,
              deadline := s.now + e.retryAfter + (e.retryAfter + T),
              calls := s.calls + 1, sleeps := s.sleeps ++ [e.retryAfter] }, ?_, rfl, rfl⟩
    simp [retryLoopGo, hin, hop, hre, hrl]

theorem delay_monotone_deadline_amended_witness :
    (1 : ℚ) ≤ 2 ∧
    (∃ d1, (retryLoopGo 5 (some 2) (fun _ => Outcome.ok ()) 0
        { now := 0, delay := some 1, deadline := 5, excInfo := none, calls := 0,
          sleeps := [] }).2.delay = some d1 ∧ (1 : ℚ) ≤ d1) :=
  ⟨by norm_num,
   (delay_monotone_deadline_amended 5 2 (fun _ => Outcome.ok ()) (by norm_num)).1 0
     { now := 0, delay := some 1, deadline := 5, excInfo := none, calls := 0, sleeps := [] }
     1 rfl (by norm_num)⟩

theorem rate_limit_widening_amended_witness :
    (0 : ℚ) < 5 ∧
    ((retry_loop (some 1) (some 5) (some 2)
        (fun n => if n = 0 then Outcome.err ⟨true, true, 10, 0⟩ else Outcome.ok ())
        (0 + 1 + 1) 0).1 = RunResult.ok () ∧
     (retry_loop (some 1) (some 5) (some 2)
        (fun n => if n = 0 then Outcome.err ⟨true, true, 10, 0⟩ else Outcome.ok ())
        (0 + 1 + 1) 0).2.sleeps = [(10 : ℚ)] ∧
     (retry_loop (some 1) (some 5) (some 2)
        (fun n => if n = 0 then Outcome.err ⟨true, true, 10, 0⟩ else Outcome.ok ())
        (0 + 1 + 1) 0).2.deadline = 0 + 2 * 10 + 5) :=
  ⟨by norm_num,
   rate_limit_widening_amended 1 2 5 10 0 ()
     (fun n => if n = 0 then Outcome.err ⟨true, true, 10, 0⟩ else Outcome.ok ())
     ⟨true, true, 10, 0⟩ 0 (by norm_num) (by norm_num) rfl rfl rfl rfl rfl⟩

theorem backoffSum_zero (d b : ℚ) : backoffSum d b 0 = 0 := by
  simp [backoffSum]

theorem backoffSum_succ_shift (d b : ℚ) (j : ℕ) :
    backoffSum d b (j + 1) = d + backoffSum (d * b) b j := by
  unfold backoffSum
  rw [Finset.sum_range_succ']
  simp only [pow_zero, mul_one]
  rw [add_comm]
  congr 1
  refine Finset.sum_congr rfl ?_
  intro i _
  ring

theorem backoffSum_mono (d b : ℚ) (hd : 0 ≤ d) (hb : 0 ≤ b) {j k : ℕ} (h : j ≤ k) :
    backoffSum d b j ≤ backoffSum d b k := by
  unfold backoffSum
  refine Finset.sum_le_sum_of_subset_of_nonneg (Finset.range_subset.mpr h) ?_
  intro i _ _
  positivity

/-- Master lemma: processing `k` consecutive retryable non-rate-limit
failures (all observed within the deadline) advances the loop state by the
geometric backoff schedule: the clock by `d0 + d0*b + ... + d0*b^(k-1)`, the
delay to `d0 * b^k`, the sleep trace by `[d0, d0*b, ..., d0*b^(k-1)]`, the
call count by `k`, recording the last error, with the deadline untouched. -/
theorem retryLoopGo_failures {α : Type} (T b : ℚ) (op : ℕ → Outcome α) :
    ∀ (k : ℕ) (es : ℕ → Err) (s : St) (d0 : ℚ) (fuel : ℕ),
      s.delay = some d0 →
      (∀ i, i < k → op (s.calls + i) = Outcome.err (es i)) →
      (∀ i, i < k → (es i).retryable = true) →
      (∀ i, i < k → (es i).rateLimit = false) →
      (∀ j, j < k → s.now + backoffSum d0 b j < s.deadline) →
      retryLoopGo T (some b) op (fuel + k) s =
        retryLoopGo T (some b) op fuel
          { now := s.now + backoffSum d0 b k,
            delay := some (d0 * b ^ k),
            deadline := s.deadline,
            excInfo := if k = 0 then s.excInfo else some (es (k - 1)),
            calls := s.calls + k,
            sleeps := s.sleeps ++ (List.range k).map (fun i => d0 * b ^ i) } := by
  intro k
  induction k with
  | zero =>
    intro es s d0 fuel hd hop hre hrl htime
    obtain ⟨sn, sd, sdl, sei, sc, ssl⟩ := s
    simp only at hd
    subst hd
    simp [backoffSum]
  | succ k ih =>
    intro es s d0 fuel hd hop hre hrl htime
    obtain ⟨sn, sd, sdl, sei, sc, ssl⟩ := s
    simp only at hd hop htime ⊢
    subst hd
    have hin : sn < sdl := by
      have h0 := htime 0 (Nat.succ_pos k)
      rw [backoffSum_zero, add_zero] at h0
      exact h0
    have hop0 : op sc = Outcome.err (es 0) := by simpa using hop 0 (Nat.succ_pos k)
    have hstep :
        retryLoopGo T (some b) op (fuel + (k + 1)) ⟨sn, some d0, sdl, sei, sc, ssl⟩ =
          retryLoopGo T (some b) op (fuel + k)
            ⟨sn + d0, some (d0 * b), sdl, some (es 0), sc + 1, ssl ++ [d0]⟩ := by
      show retryLoopGo T (some b) op ((fuel + k) + 1) _ = _
      simp [retryLoopGo, hin, hop0, hre 0 (Nat.succ_pos k), hrl 0 (Nat.succ_pos k)]
    rw [hstep]
    have h2 : ∀ i, i < k →
        op ((⟨sn + d0, some (d0 * b), sdl, some (es 0), sc + 1, ssl ++ [d0]⟩ : St).calls + i) =
          Outcome.err (es (i + 1)) := by
      intro i hi
      show op (sc + 1 + i) = _
      have h := hop (i + 1) (by omega)
      rwa [show sc + (i + 1) = sc + 1 + i by omega] at h
    have h3 : ∀ i, i < k → (es (i + 1)).retryable = true := fun i hi => hre (i + 1) (by omega)
    have h4 : ∀ i, i < k → (es (i + 1)).rateLimit = false := fun i hi => hrl (i + 1) (by omega)
    have h5 : ∀ j, j < k →
        (⟨sn + d0, some (d0 * b), sdl, some (es 0), sc + 1, ssl ++ [d0]⟩ : St).now +
            backoffSum (d0 * b) b j <
          (⟨sn + d0, some (d0 * b), sdl, some (es 0), sc + 1, ssl ++ [d0]⟩ : St).deadline := by
      intro j hj
      show sn + d0 + backoffSum (d0 * b) b j < sdl
      have h := htime (j + 1) (by omega)
      rw [backoffSum_succ_shift] at h
      linarith
    rw [ih (fun i => es (i + 1))
      ⟨sn + d0, some (d0 * b), sdl, some (es 0), sc + 1, ssl ++ [d0]⟩
      (d0 * b) fuel rfl h2 h3 h4 h5]
    congr 1
    simp only [St.mk.injEq]
    refine ⟨?_, ?_, trivial, ?_, ?_, ?_⟩
    · rw [backoffSum_succ_shift]
      ring
    · rw [pow_succ]
      exact congrArg some (by ring)
    · by_cases hk : k = 0
      · subst hk
        simp
      · simp only [hk, if_false, Nat.succ_ne_zero, Nat.add_sub_cancel]
        rw [show k - 1 + 1 = k by omega]
    · omega
    · rw [List.range_succ_eq_map, List.map_cons, List.map_map]
      simp only [pow_zero, mul_one, List.append_assoc, List.singleton_append]
      have hmap : (List.range k).map (fun i => d0 * b * b ^ i) =
          (List.range k).map ((fun i => d0 * b ^ i) ∘ Nat.succ) := by
        refine List.map_congr_left ?_
        intro i _
        simp only [Function.comp_apply, Nat.succ_eq_add_one, pow_succ]
        ring
      rw [hmap]

/-- Along any run of the loop, the sleep trace only ever grows by appending:
the initial trace is a prefix of the final one. -/
theorem retryLoopGo_sleeps_extend {α : Type} (T : ℚ) (bo : Option ℚ) (op : ℕ → Outcome α) :
    ∀ (fuel : ℕ) (s : St), ∃ t, (retryLoopGo T bo op fuel s).2.sleeps = s.sleeps ++ t := by
  intro fuel
  induction fuel with
  | zero =>
    intro s
    exact ⟨[], by simp [retryLoopGo]⟩
  | succ f ih =>
    intro s
    by_cases hin : s.now < s.deadline
    · cases hop : op s.calls with
      | ok v => exact ⟨[], by simp [retryLoopGo, hin, hop]⟩
      | err e =>
        by_cases hre : e.retryable = true
        · by_cases hrl : e.rateLimit = true
          · obtain ⟨t, ht⟩ := ih
              { s with now := s.now + e.retryAfter,
                       deadline := s.now + e.retryAfter + (e.retryAfter + T),
                       calls := s.calls + 1, sleeps := s.sleeps ++ [e.retryAfter] }
            exact ⟨e.retryAfter :: t, by simp [retryLoopGo, hin, hop, hre, hrl, ht]⟩
          · have hrl' : e.rateLimit = false := by simpa using hrl
            cases hd : s.delay with
            | none => exact ⟨[], by simp [retryLoopGo, hin, hop, hre, hrl', hd]⟩
            | some d =>
              cases bo with
              | none => exact ⟨[d], by simp [retryLoopGo, hin, hop, hre, hrl', hd]⟩
              | some b0 =>
                obtain ⟨t, ht⟩ := ih
                  { s with excInfo := some e, now := s.now + d, delay := some (d * b0),
                           calls := s.calls + 1, sleeps := s.sleeps ++ [d] }
                exact ⟨d :: t, by simp [retryLoopGo, hin, hop, hre, hrl', hd, ht]⟩
        · have hre' : e.retryable = false := by simpa using hre
          exact ⟨[], by simp [retryLoopGo, hin, hop, hre']⟩
    · cases hexc : s.excInfo with
      | some e => exact ⟨[], by simp [retryLoopGo, hin, hexc]⟩
      | none =>
        cases hop : op s.calls with
        | ok v => exact ⟨[], by simp [retryLoopGo, hin, hexc, hop]⟩
        | err e => exact ⟨[], by simp [retryLoopGo, hin, hexc, hop]⟩

/-- C3: with `timeoutSeconds > 0` (implied by the cumulative-delay bound),
if the first `N−1` attempts fail with retryable non-rate-limit errors whose
cumulative backoff delay stays within the budget and the `N`-th attempt
succeeds, the wrapper returns the success value having invoked `op` exactly
`N` times. -/
theorem retry_success_after_failures {α : Type} (d b T t0 : ℚ) (op : ℕ → Outcome α)
    (es : ℕ → Err) (N : ℕ) (v : α) (fuel : ℕ)
    (hN : 1 ≤ N)
    (hop : ∀ i, i < N - 1 → op i = Outcome.err (es i))
    (hre : ∀ i, i < N - 1 → (es i).retryable = true)
    (hrl : ∀ i, i < N - 1 → (es i).rateLimit = false)
    (hok : op (N - 1) = Outcome.ok v)
    (hd : 0 ≤ d) (hb : 0 ≤ b)
    (hsum : backoffSum d b (N - 1) < T) :
    (retry_loop (some d) (some T) (some b) op (fuel + 1 + (N - 1)) t0).1 = RunResult.ok v ∧
    (retry_loop (some d) (some T) (some b) op (fuel + 1 + (N - 1)) t0).2.calls = N := by
  have hmaster := retryLoopGo_failures T b op (N - 1) es
    { now := t0, delay := some d, deadline := t0 + T, excInfo := none, calls := 0,
      sleeps := [] } d (fuel + 1) rfl
    (by intro i hi; simpa using hop i hi) hre hrl
    (by
      intro j hj
      show t0 + backoffSum d b j < t0 + T
      have hle : backoffSum d b j ≤ backoffSum d b (N - 1) :=
        backoffSum_mono d b hd hb (le_of_lt hj)
      linarith)
  simp only [retry_loop]
  rw [hmaster]
  have hin : t0 + backoffSum d b (N - 1) < t0 + T := by linarith
  constructor
  · simp [retryLoopGo, hin, hok]
  · simp [retryLoopGo, hin, hok]
    omega

theorem retry_success_after_failures_witness :
    backoffSum 1 2 (3 - 1) < 5 ∧
    ((retry_loop (some 1) (some 5) (some 2)
        (fun n => if n < 2 then Outcome.err ⟨true, false, 0, n⟩ else Outcome.ok 42)
        (0 + 1 + (3 - 1)) 0).1 = RunResult.ok 42 ∧
     (retry_loop (some 1) (some 5) (some 2)
        (fun n => if n < 2 then Outcome.err ⟨true, false, 0, n⟩ else Outcome.ok 42)
        (0 + 1 + (3 - 1)) 0).2.calls = 3) :=
  ⟨by norm_num [backoffSum, Finset.sum_range_succ],
   retry_success_after_failures 1 2 5 0
     (fun n => if n < 2 then Outcome.err ⟨true, false, 0, n⟩ else Outcome.ok 42)
     (fun i => ⟨true, false, 0, i⟩) 3 42 0 (by norm_num)
     (by intro i hi; interval_cases i <;> rfl)
     (by intro i hi; rfl)
     (by intro i hi; rfl)
     rfl (by norm_num) (by norm_num)
     (by norm_num [backoffSum, Finset.sum_range_succ])⟩

/-- C4: under `k` consecutive retryable non-rate-limit failures observed
within the deadline, the first `k` durations passed to the suspend primitive
are `d, d*b, d*b^2, ..., d*b^(k-1)`, in that order. -/
theorem backoff_sleep_durations {α : Type} (d b T t0 : ℚ) (op : ℕ → Outcome α)
    (es : ℕ → Err) (k : ℕ) (fuel : ℕ)
    (hop : ∀ i, i < k → op i = Outcome.err (es i))
    (hre : ∀ i, i < k → (es i).retryable = true)
    (hrl : ∀ i, i < k → (es i).rateLimit = false)
    (htime : ∀ j, j < k → backoffSum d b j < T) :
    (retry_loop (some d) (some T) (some b) op (fuel + k) t0).2.sleeps.take k =
      (List.range k).map (fun i => d * b ^ i) := by
  have hmaster := retryLoopGo_failures T b op k es
    { now := t0, delay := some d, deadline := t0 + T, excInfo := none, calls := 0,
      sleeps := [] } d fuel rfl
    (by intro i hi; simpa using hop i hi) hre hrl
    (by
      intro j hj
      show t0 + backoffSum d b j < t0 + T
      have := htime j hj
      linarith)
  simp only [retry_loop]
  rw [hmaster]
  obtain ⟨t, ht⟩ := retryLoopGo_sleeps_extend T (some b) op fuel
    { now := t0 + backoffSum d b k, delay := some (d * b ^ k), deadline := t0 + T,
      excInfo := if k = 0 then none else some (es (k - 1)), calls := 0 + k,
      sleeps := [] ++ (List.range k).map (fun i => d * b ^ i) }
  rw [ht]
  simp only [List.nil_append]
  have hlen : ((List.range k).map (fun i => d * b ^ i)).length = k := by simp
  exact List.take_left' hlen

theorem backoff_sleep_durations_witness :
    (∀ j, j < 2 → backoffSum 1 2 j < 5) ∧
    (retry_loop (some 1) (some 5) (some 2)
        (fun n => if n < 2 then Outcome.err ⟨true, false, 0, n⟩ else Outcome.ok 42)
        (1 + 2) 0).2.sleeps.take 2 =
      (List.range 2).map (fun i => (1 : ℚ) * 2 ^ i) :=
  ⟨by intro j hj; interval_cases j <;> norm_num [backoffSum, Finset.sum_range_succ],
   backoff_sleep_durations 1 2 5 0
     (fun n => if n < 2 then Outcome.err ⟨true, false, 0, n⟩ else Outcome.ok 42)
     (fun i => ⟨true, false, 0, i⟩) 2 1
     (by intro i hi; interval_cases i <;> rfl)
     (by intro i hi; rfl)
     (by intro i hi; rfl)
     (by intro j hj; interval_cases j <;> norm_num [backoffSum, Finset.sum_range_succ])⟩

/-- C5: if `k ≥ 1` retryable non-rate-limit failures `E1 … Ek` consume the
whole time budget with no success (each is observed within the deadline, and
after the `k`-th backoff sleep the deadline has passed), the wrapper
propagates `Ek`, the last recorded retryable error. -/
theorem deadline_exhaustion_last_error {α : Type} (d b T t0 : ℚ) (op : ℕ → Outcome α)
    (es : ℕ → Err) (k : ℕ) (fuel : ℕ)
    (hk : 1 ≤ k)
    (hop : ∀ i, i < k → op i = Outcome.err (es i))
    (hre : ∀ i, i < k → (es i).retryable = true)
    (hrl : ∀ i, i < k → (es i).rateLimit = false)
    (htime : ∀ j, j < k → backoffSum d b j < T)
    (hfull : T ≤ backoffSum d b k) :
    (retry_loop (some d) (some T) (some b) op (fuel + 1 + k) t0).1 =
      RunResult.raised (es (k - 1)) := by
  have hmaster := retryLoopGo_failures T b op k es
    { now := t0, delay := some d, deadline := t0 + T, excInfo := none, calls := 0,
      sleeps := [] } d (fuel + 1) rfl
    (by intro i hi; simpa using hop i hi) hre hrl
    (by
      intro j hj
      show t0 + backoffSum d b j < t0 + T
      have := htime j hj
      linarith)
  simp only [retry_loop]
  rw [hmaster]
  have hout : ¬ (t0 + backoffSum d b k < t0 + T) := by linarith
  have hk0 : ¬ (k = 0) := by omega
  simp [retryLoopGo, hout, hk0]

theorem deadline_exhaustion_last_error_witness :
    (3 : ℚ) ≤ backoffSum 1 2 2 ∧
    (retry_loop (some 1) (some 3) (some 2)
        (fun n => Outcome.err (α := ℕ) ⟨true, false, 0, n⟩)
        (0 + 1 + 2) 0).1 = RunResult.raised ⟨true, false, 0, 2 - 1⟩ :=
  ⟨by norm_num [backoffSum, Finset.sum_range_succ],
   deadline_exhaustion_last_error 1 2 3 0
     (fun n => Outcome.err ⟨true, false, 0, n⟩)
     (fun i => ⟨true, false, 0, i⟩) 2 0 (by norm_num)
     (by intro i hi; rfl)
     (by intro i hi; rfl)
     (by intro i hi; rfl)
     (by intro j hj; interval_cases j <;> norm_num [backoffSum, Finset.sum_range_succ])
     (by norm_num [backoffSum, Finset.sum_range_succ])⟩

/-! ### Lemmas for the `str2dicts` / `dict2str` round trip -/

theorem splitOnChar_ne_nil (sep : Char) : ∀ l : List Char, splitOnChar sep l ≠ [] := by
  intro l
  induction l with
  | nil => simp [splitOnChar]
  | cons c cs ih =>
    simp only [splitOnChar]
    cases h : splitOnChar sep cs with
    | nil => simp
    | cons g gs =>
      by_cases hc : c = sep <;> simp [hc]

theorem splitOnChar_append (sep : Char) : ∀ (xs ys : List Char), sep ∉ xs →
    splitOnChar sep (xs ++ sep :: ys) = xs :: splitOnChar sep ys := by
  intro xs
  induction xs with
  | nil =>
    intro ys _
    simp only [List.nil_append, splitOnChar]
    cases h : splitOnChar sep ys with
    | nil => exact absurd h (splitOnChar_ne_nil sep ys)
    | cons g gs => simp
  | cons c cs ih =>
    intro ys hns
    have hc : ¬ c = sep := fun h => hns (by simp [h])
    have hcs : sep ∉ cs := fun h => hns (List.mem_cons_of_mem _ h)
    simp only [List.cons_append, splitOnChar, List.append_eq]
    rw [ih ys hcs]
    simp [hc]

theorem dict2str_strEntries (d : List (List Char × List Char)) :
    dict2str (strEntries d) = (d.map (fun p => lineOf p ++ ['\n'])).flatten := by
  unfold dict2str strEntries lineOf
  rw [List.map_map]
  congr 1
  refine List.map_congr_left ?_
  intro p _
  simp

theorem splitOnChar_flatten_lines : ∀ (ls : List (List Char)),
    (∀ l ∈ ls, '\n' ∉ l) →
    splitOnChar '\n' ((ls.map (fun l => l ++ ['\n'])).flatten) = ls ++ [[]] := by
  intro ls
  induction ls with
  | nil => intro _; rfl
  | cons l ls ih =>
    intro h
    simp only [List.map_cons, List.flatten_cons, List.append_assoc, List.singleton_append]
    rw [splitOnChar_append '\n' l _ (h l (by simp)), ih (fun x hx => h x (by simp [hx]))]
    rfl

theorem dropWhile_eq_self_of_head (p : Char → Bool) (l : List Char)
    (h : ∀ c, l.head? = some c → p c = false) : l.dropWhile p = l := by
  cases l with
  | nil => rfl
  | cons a as =>
    have ha := h a rfl
    simp [List.dropWhile_cons, ha]

theorem pyStrip_eq_self (l : List Char)
    (h1 : ∀ c, l.head? = some c → isPySpace c = false)
    (h2 : ∀ c, l.getLast? = some c → isPySpace c = false) :
    pyStrip l = l := by
  unfold pyStrip
  rw [dropWhile_eq_self_of_head _ l h1]
  rw [dropWhile_eq_self_of_head _ l.reverse (by
    intro c hc
    rw [List.head?_reverse] at hc
    exact h2 c hc)]
  exact List.reverse_reverse l

theorem findIdx_space_aux (v : List Char) :
    ∀ (k : List Char) (i : ℕ), (∀ c ∈ k, ¬ c = ' ') →
      List.findIdx? (fun x => decide (x = ' ')) (k ++ ' ' :: v) i = some (i + k.length) := by
  intro k
  induction k with
  | nil =>
    intro i _
    simp [List.findIdx?]
  | cons c cs ih =>
    intro i h
    have hc : ¬ c = ' ' := h c (by simp)
    have hif : (decide (c = ' ')) = false := by simp [hc]
    simp only [List.cons_append, List.findIdx?, hif, Bool.false_eq_true, if_false,
      List.append_eq]
    rw [ih (i + 1) (fun x hx => h x (by simp [hx]))]
    congr 1
    simp only [List.length_cons]
    omega

theorem pyFind_space (k v : List Char) (h : ∀ c ∈ k, ¬ c = ' ') :
    pyFind ' ' (k ++ ' ' :: v) = (k.length : Int) := by
  unfold pyFind
  rw [findIdx_space_aux v k 0 h]
  simp

theorem sliceTo_append (k rest : List Char) :
    sliceTo (k ++ rest) (k.length : Int) = k := by
  unfold sliceTo
  rw [if_pos (Int.natCast_nonneg k.length), Int.toNat_natCast]
  exact List.take_left k rest

theorem sliceFrom_append (k v : List Char) :
    sliceFrom (k ++ ' ' :: v) ((k.length : Int) + 1) = v := by
  unfold sliceFrom
  rw [if_pos (by positivity)]
  have h1 : ((k.length : Int) + 1).toNat = k.length + 1 := by omega
  rw [h1, show k ++ ' ' :: v = (k ++ [' ']) ++ v by simp,
    show k.length + 1 = (k ++ [' ']).length by simp]
  exact List.drop_left _ _

theorem dictUpdate_not_mem (cur : PyDict) (k : List Char) (v : Option (List Char))
    (h : k ∉ cur.map Prod.fst) :
    dictUpdate cur k v = cur ++ [(k, v)] := by
  have hfalse : cur.any (fun p => decide (p.1 = k)) = false := by
    rw [List.any_eq_false]
    intro p hp
    simp only [decide_eq_true_eq]
    intro hpk
    exact h (hpk ▸ List.mem_map_of_mem Prod.fst hp)
  simp [dictUpdate, hfalse]

/-- The side conditions on one entry of a round-trippable dict: key and value
non-empty and free of strip-able whitespace. -/
def GoodEntry (p : List Char × List Char) : Prop :=
  p.1 ≠ [] ∧ p.2 ≠ [] ∧
    (∀ c ∈ p.1, isPySpace c = false) ∧ (∀ c ∈ p.2, isPySpace c = false)

theorem lineOf_strip_eq_self (p : List Char × List Char) (hg : GoodEntry p) :
    pyStrip (lineOf p) = lineOf p := by
  obtain ⟨hk, hv, hkc, hvc⟩ := hg
  refine pyStrip_eq_self (lineOf p) ?_ ?_
  · intro c hc
    cases hp1 : p.1 with
    | nil => exact absurd hp1 hk
    | cons a as =>
      rw [lineOf, hp1] at hc
      simp only [List.cons_append, List.head?_cons, Option.some.injEq] at hc
      exact hc ▸ hkc a (by rw [hp1]; exact List.mem_cons_self a as)
  · intro c hc
    rcases List.eq_nil_or_concat p.2 with hv2 | ⟨vs, a, hva⟩
    · exact absurd hv2 hv
    · rw [lineOf, hva] at hc
      simp only [List.concat_eq_append] at hc
      rw [show p.1 ++ ' ' :: (vs ++ [a]) = (p.1 ++ ' ' :: vs) ++ [a] by simp,
        List.getLast?_concat] at hc
      obtain rfl : a = c := by injection hc
      refine hvc a ?_
      rw [hva]
      simp [List.concat_eq_append]

theorem key_chars_not_space (p : List Char × List Char) (hg : GoodEntry p) :
    ∀ c ∈ p.1, ¬ c = ' ' := by
  intro c hc hceq
  have h1 := hg.2.2.1 c hc
  rw [hceq] at h1
  have h2 : isPySpace ' ' = true := by decide
  rw [h1] at h2
  exact Bool.noConfusion h2

theorem newline_not_mem_lineOf (p : List Char × List Char) (hg : GoodEntry p) :
    '\n' ∉ lineOf p := by
  intro hmem
  have hnl : isPySpace '\n' = true := by decide
  rw [lineOf] at hmem
  rcases List.mem_append.mp hmem with h | h
  · have h1 := hg.2.2.1 _ h
    rw [hnl] at h1
    exact Bool.noConfusion h1
  · rcases List.mem_cons.mp h with h | h
    · exact absurd h (by decide)
    · have h1 := hg.2.2.2 _ h
      rw [hnl] at h1
      exact Bool.noConfusion h1

/-- Master lemma for `str2dicts ∘ dict2str`: running the line loop on the
rendered lines of a well-formed dict appends exactly that dict's entries to
the current dict, and the trailing empty line contributes one final empty
dict. -/
theorem processLines_entries :
    ∀ (d : List (List Char × List Char)) (acc : List PyDict) (cur : PyDict),
      (∀ p ∈ d, GoodEntry p) →
      (d.map Prod.fst).Nodup →
      (∀ p ∈ d, p.1 ∉ cur.map Prod.fst) →
      processLines ((d.map lineOf) ++ [[]]) acc cur =
        (acc ++ [cur ++ strEntries d]) ++ [[]] := by
  intro d
  induction d with
  | nil =>
    intro acc cur hcond hnd hdisj
    simp [processLines, pyStrip, strEntries]
  | cons p d ih =>
    intro acc cur hcond hnd hdisj
    have hg : GoodEntry p := hcond p (by simp)
    have hline := lineOf_strip_eq_self p hg
    have hlnil : ¬ (lineOf p = []) := by simp [lineOf]
    have hfind : pyFind ' ' (lineOf p) = (p.1.length : Int) := by
      unfold lineOf
      exact pyFind_space p.1 p.2 (key_chars_not_space p hg)
    have hw0 : ¬ (pyFind ' ' (lineOf p) = 0) := by
      rw [hfind]
      rw [Int.natCast_eq_zero, List.length_eq_zero]
      exact hg.1
    have hupdate : dictUpdate cur (sliceTo (lineOf p) (pyFind ' ' (lineOf p)))
        (some (sliceFrom (lineOf p) (pyFind ' ' (lineOf p) + 1))) =
        cur ++ [(p.1, some p.2)] := by
      rw [hfind]
      unfold lineOf
      rw [sliceTo_append p.1 (' ' :: p.2), sliceFrom_append p.1 p.2]
      exact dictUpdate_not_mem cur p.1 (some p.2) (hdisj p (by simp))
    have hnd' : (d.map Prod.fst).Nodup := (List.nodup_cons.mp hnd).2
    have hknotin : p.1 ∉ d.map Prod.fst := (List.nodup_cons.mp hnd).1
    have hdisj' : ∀ q ∈ d, q.1 ∉ (cur ++ [(p.1, some p.2)]).map Prod.fst := by
      intro q hq
      rw [List.map_append]
      intro hmem
      rcases List.mem_append.mp hmem with h | h
      · exact hdisj q (by simp [hq]) h
      · simp only [List.map_cons, List.map_nil, List.mem_singleton] at h
        exact hknotin (h ▸ List.mem_map_of_mem Prod.fst hq)
    calc processLines ((lineOf p :: d.map lineOf) ++ [[]]) acc cur
        = processLines ((d.map lineOf) ++ [[]]) acc (cur ++ [(p.1, some p.2)]) := by
          simp only [List.cons_append, processLines, hline, hlnil, if_false, hw0, hupdate,
            List.append_eq]
      _ = (acc ++ [(cur ++ [(p.1, some p.2)]) ++ strEntries d]) ++ [[]] :=
          ih acc (cur ++ [(p.1, some p.2)]) (fun q hq => hcond q (by simp [hq])) hnd' hdisj'
      _ = (acc ++ [cur ++ strEntries (p :: d)]) ++ [[]] := by
          simp [strEntries]

/-- C10 counterexample: `d = {"k": "v\t"}` satisfies the claim's hypotheses
(key and value non-empty, containing no space and no newline), yet
`str2dicts (dict2str d)` is `[{"k": "v"}]`, not `[d]`: the trailing tab is
removed by `line.strip()`, which strips all whitespace, not just spaces and
newlines. -/
theorem roundtrip_tab_cex :
    str2dicts (dict2str (strEntries [(['k'], ['v', '\t'])])) ≠
      [strEntries [(['k'], ['v', '\t'])]] ∧
    str2dicts (dict2str (strEntries [(['k'], ['v', '\t'])])) = [[(['k'], some ['v'])]] ∧
    (['k'] : List Char) ≠ [] ∧ (['v', '\t'] : List Char) ≠ [] ∧
    ' ' ∉ (['v', '\t'] : List Char) ∧ '\n' ∉ (['v', '\t'] : List Char) := by
  refine ⟨by decide, by decide, by decide, by decide, by decide, by decide⟩

/-- C10 amended: for every non-empty dict whose keys and values are all
non-empty strings containing no whitespace character stripped by Python's
`str.strip()` (space, tab, LF, VT, FF, CR, the `\x1c`–`\x1f` separators,
`\x85` and the Unicode space characters — the claim's "no space and no
newline" is not enough), and whose keys are pairwise distinct,
`str2dicts (dict2str d)` is the one-element list `[d]`. -/
theorem str2dicts_dict2str_roundtrip (d : List (List Char × List Char))
    (hne : d ≠ [])
    (hnd : (d.map Prod.fst).Nodup)
    (hcond : ∀ p ∈ d, GoodEntry p) :
    str2dicts (dict2str (strEntries d)) = [strEntries d] := by
  unfold str2dicts
  rw [dict2str_strEntries]
  rw [show (d.map (fun p => lineOf p ++ ['\n'])) = ((d.map lineOf).map (fun l => l ++ ['\n']))
    from by rw [List.map_map]; exact List.map_congr_left (fun a _ => rfl)]
  rw [splitOnChar_flatten_lines (d.map lineOf) (by
    intro l hl
    obtain ⟨p, hp, rfl⟩ := List.mem_map.mp hl
    exact newline_not_mem_lineOf p (hcond p hp))]
  rw [processLines_entries d [] [] hcond hnd (by intro p _; simp)]
  cases hse : strEntries d with
  | nil =>
    exact absurd (by simpa [strEntries] using hse) hne
  | cons q qs =>
    simp [List.filter]

theorem str2dicts_dict2str_roundtrip_witness :
    ([(['c', 'p', 'u'], ['1', '1', '0', '0']), (['r', 'a', 'm'], ['6', '4', '0'])] :
        List (List Char × List Char)) ≠ [] ∧
    str2dicts (dict2str (strEntries
        [(['c', 'p', 'u'], ['1', '1', '0', '0']), (['r', 'a', 'm'], ['6', '4', '0'])])) =
      [strEntries [(['c', 'p', 'u'], ['1', '1', '0', '0']), (['r', 'a', 'm'], ['6', '4', '0'])]] :=
  ⟨by decide,
   str2dicts_dict2str_roundtrip
     [(['c', 'p', 'u'], ['1', '1', '0', '0']), (['r', 'a', 'm'], ['6', '4', '0'])]
     (by decide) (by decide)
     (by
       intro p hp
       rcases List.mem_cons.mp hp with h | h
       · subst h
         refine ⟨by decide, by decide, by decide, by decide⟩
       · rcases List.mem_cons.mp h with h | h
         · subst h
           refine ⟨by decide, by decide, by decide, by decide⟩
         · cases h)⟩

end LibcloudMisc
